import Mathlib

/-!
# TTL cache (`cache/cache.go`)

A shallow embedding of the in-memory cache of the library service and the
properties of its five operations.

Modelling conventions:

* A Go `string` is a finite sequence of bytes (`GoString`).
* `time.Time` is an instant counted in nanoseconds (`Time`, an integer);
  `time.Now()` is an explicit argument `now` of every operation that reads the
  clock; `Time.Add` is addition and `Time.After` is strict `>`.
* `time.Duration` is a signed 64-bit count of nanoseconds; the only place where
  the source does 64-bit arithmetic on it is `NewCache`, where the product is
  reduced with `wrapInt64`.
* `interface{}` is `Any α`: either `nil` (`none`) or a dynamic value.
* `map[string]*CacheEntry` is a finite map with unique keys (`AList`).
* `uint` is a natural number, and the verb `%d` of `fmt.Sprintf` writes its
  decimal digits (`formatUint`).
* The reader-writer lock and the `log.Printf` calls are not part of the state.
-/

namespace Lab4

/-- One byte of a Go string. -/
abbrev Byte := Fin 256

/-- Go `string`: an immutable sequence of bytes. -/
abbrev GoString := List Byte

/-- The bytes of an ASCII string literal. -/
def ascii (s : String) : GoString :=
  s.toList.map (fun ch => Fin.ofNat ch.toNat)

/-- Instants of `time.Time`, in nanoseconds. -/
abbrev Time := Int

/-- Values of `time.Duration`: nanoseconds, stored in an `int64`. -/
abbrev Duration := Int

/-- Two's complement reduction of an integer to the `int64` range. -/
def wrapInt64 (x : Int) : Int :=
  (x + 2 ^ 63) % 2 ^ 64 - 2 ^ 63

/-- Largest `int64`. -/
def maxInt64 : Int := 2 ^ 63 - 1

/-- Smallest `int64`. -/
def minInt64 : Int := -(2 ^ 63)

/-- Constant `time.Second`. -/
def Second : Duration := 1000000000

/-- Method `Time.Add`. -/
def timeAdd (t : Time) (d : Duration) : Time := t + d

/-- Method `Time.After`: `t.After(u)` reports whether `t` is after `u`. -/
def timeAfter (t u : Time) : Bool := decide (u < t)

/-- Go `interface{}`: `none` is the `nil` interface value. -/
abbrev Any (α : Type) := Option α

/-- Struct `CacheEntry`. -/
structure CacheEntry (α : Type) where
  data : Any α
  expiresAt : Time
  deriving DecidableEq

/-- Method `IsExpired`: `time.Now().After(e.expiresAt)`. -/
def CacheEntry.IsExpired {α : Type} (e : CacheEntry α) (now : Time) : Bool :=
  timeAfter now e.expiresAt

/-- The type of the field `entries`. -/
abbrev Entries (α : Type) := AList (fun _ : GoString => CacheEntry α)

/-- Struct `Cache` (without the lock). -/
structure Cache (α : Type) where
  entries : Entries α
  ttl : Duration

/-- Function `NewCache`. -/
def NewCache {α : Type} (ttlSeconds : Int) : Cache α :=
  { entries := ∅
    ttl := wrapInt64 (ttlSeconds * Second) }

namespace Cache

variable {α : Type}

/-- Method `Set`, run when the clock reads `now`. -/
def Set (c : Cache α) (key : GoString) (value : Any α) (now : Time) : Cache α :=
  let entry : CacheEntry α :=
    { data := value
      expiresAt := timeAdd now c.ttl }
  { c with entries := c.entries.insert key entry }

/-- Method `Get`, run when the clock reads `now`. -/
def Get (c : Cache α) (key : GoString) (now : Time) : Any α × Bool :=
  match c.entries.lookup key with
  | none => (none, false)
  | some entry =>
    if entry.IsExpired now then (none, false)
    else (entry.data, true)

/-- Method `Invalidate`. -/
def Invalidate (c : Cache α) (key : GoString) : Cache α :=
  if (c.entries.lookup key).isSome then
    { c with entries := c.entries.erase key }
  else c

/-- The test of the loop of `InvalidatePattern`:
`len(key) >= len(pattern) && key[:len(pattern)] == pattern`. -/
def matchesPattern (key pattern : GoString) : Bool :=
  decide (key.length ≥ pattern.length) && decide (key.take pattern.length = pattern)

/-- One iteration of the loop of `InvalidatePattern`, on the mapping and
`invalidatedCount`. -/
def invalidateStep (pattern : GoString) (acc : Entries α × Nat) (key : GoString) :
    Entries α × Nat :=
  if matchesPattern key pattern then (acc.1.erase key, acc.2 + 1) else acc

/-- Method `InvalidatePattern`: the loop runs over the keys of the mapping. -/
def InvalidatePattern (c : Cache α) (pattern : GoString) : Cache α :=
  let acc := c.entries.keys.foldl (invalidateStep pattern) (c.entries, 0)
  { c with entries := acc.1 }

/-- Method `Clear`. -/
def Clear (c : Cache α) : Cache α :=
  { c with entries := ∅ }

end Cache

/-- A call of one of the five operations, with the clock reading where the
operation reads the clock. -/
inductive Op (α : Type) where
  | set (key : GoString) (value : Any α) (now : Time)
  | get (key : GoString) (now : Time)
  | invalidate (key : GoString)
  | invalidatePattern (pattern : GoString)
  | clear

/-- The cache after one call. -/
def Cache.apply {α : Type} (c : Cache α) : Op α → Cache α
  | .set key value now => c.Set key value now
  | .get _ _ => c
  | .invalidate key => c.Invalidate key
  | .invalidatePattern pattern => c.InvalidatePattern pattern
  | .clear => c.Clear

/-- The cache after a sequence of calls. -/
def Cache.run {α : Type} (c : Cache α) (ops : List (Op α)) : Cache α :=
  ops.foldl Cache.apply c

/-- The call writes the entry of `key`: it is a `Set` of that key. -/
def Op.setsKey {α : Type} (key : GoString) : Op α → Bool
  | .set k _ _ => decide (k = key)
  | _ => false

/-! ## Example states -/

/-- The cache of the scenario `NewCache(2); Set("a", "x")`, the `Set` running
at instant `0`. -/
def cacheA : Cache String :=
  (NewCache 2).Set (ascii "a") (some "x") 0

/-- A cache with TTL 2 s where `"k"` is set to `"v1"` at instant `0` and again to
`"v2"` five seconds later. -/
def cacheTwice : Cache String :=
  ((NewCache 2).Set (ascii "k") (some "v1") 0).Set (ascii "k") (some "v2") 5000000000

/-- The cache of the scenario that sets `books:list`, `books:id:1`,
`books:id:2` and `readers:list` (TTL 2 s, every `Set` at instant `0`). -/
def cacheBooks : Cache String :=
  ((((NewCache 2).Set (ascii "books:list") (some "l") 0).Set
      (ascii "books:id:1") (some "b1") 0).Set
      (ascii "books:id:2") (some "b2") 0).Set
      (ascii "readers:list") (some "r") 0

/-- Largest number of whole seconds whose nanosecond count fits an `int64`:
`maxInt64 / 10^9`. -/
def maxTTLSeconds : Int := 9223372036

/-! ## Key helpers -/

/-- The ASCII digit of a value below ten. -/
def digitByte (d : Nat) : Byte := Fin.ofNat (48 + d)

/-- The digit loop of the verb `%d`: digits are produced from the least
significant one and put in front of what is already written. -/
def formatUintCore : Nat → Nat → GoString → GoString
  | 0, _, acc => acc
  | fuel + 1, u, acc =>
    if u < 10 then digitByte u :: acc
    else formatUintCore fuel (u / 10) (digitByte (u % 10) :: acc)

/-- What `fmt.Sprintf("%d", u)` writes for an unsigned `u`: its decimal digits,
most significant first, `0` for zero. -/
def formatUint (u : Nat) : GoString := formatUintCore (u + 1) u []

/-- Function `BookListKey`. -/
def BookListKey : GoString := ascii "books:list"

/-- Function `BookIDKey`; a `uint` is a natural number. -/
def BookIDKey (id : Nat) : GoString := ascii "books:id:" ++ formatUint id

/-- Function `ReaderListKey`. -/
def ReaderListKey : GoString := ascii "readers:list"

/-- Function `ReaderIDKey`; a `uint` is a natural number. -/
def ReaderIDKey (id : Nat) : GoString := ascii "readers:id:" ++ formatUint id

/-- The number a string of decimal digits stands for. -/
def parseDecimal (ds : GoString) : Nat :=
  ds.foldl (fun a b => 10 * a + (b.val - 48)) 0

/-! ## Call histories -/

/-- The call is a `Get`. -/
def Op.isGet {α : Type} : Op α → Bool
  | .get _ _ => true
  | _ => false

/-- The clock reading of the call when it is a `Set` of `key`. -/
def Op.setTime? {α : Type} (key : GoString) : Op α → Option Time
  | .set k _ now => if k = key then some now else none
  | _ => none

/-- The clock reading of the most recent `Set` of `key` in a sequence of calls
(the last one in the list), if there is one. -/
def lastSetTime {α : Type} (key : GoString) : List (Op α) → Option Time
  | [] => none
  | op :: ops =>
    match lastSetTime key ops with
    | some t => some t
    | none => op.setTime? key

/-- The cache of `NewCache(0); Set("a", "x")`, the `Set` running at instant
`100`. -/
def cacheZero : Cache String :=
  (NewCache 0).Set (ascii "a") (some "x") 100

/-- A cache whose only entry, under `a`, expired at instant `5`. -/
def cacheStale : Cache String :=
  { entries := AList.singleton (ascii "a") { data := some "x", expiresAt := 5 }
    ttl := 2000000000 }

/-- A history on one key: set at `0`, read, set again at `5 s`. -/
def historyTwice : List (Op String) :=
  [Op.set (ascii "k") (some "v1") 0, Op.get (ascii "k") 1,
   Op.set (ascii "k") (some "v2") 5000000000]

/-! ## Arithmetic and string helpers -/

theorem wrapInt64_of_range (x : Int) (hlo : minInt64 ≤ x) (hhi : x ≤ maxInt64) :
    wrapInt64 x = x := by
  unfold wrapInt64
  unfold minInt64 at hlo
  unfold maxInt64 at hhi
  norm_num at hlo hhi ⊢
  omega

theorem timeAfter_iff (t u : Time) : timeAfter t u = true ↔ u < t := by
  simp [timeAfter]

theorem matchesPattern_iff (key pattern : GoString) :
    Cache.matchesPattern key pattern = true ↔ pattern <+: key := by
  unfold Cache.matchesPattern
  rw [List.prefix_iff_eq_take]
  constructor
  · intro h
    simp only [Bool.and_eq_true, decide_eq_true_eq] at h
    exact h.2.symm
  · intro h
    simp only [Bool.and_eq_true, decide_eq_true_eq]
    refine ⟨?_, h.symm⟩
    have hlen := congrArg List.length h
    rw [List.length_take] at hlen
    omega

/-! ## The mapping after each operation -/

section Lookup

variable {α : Type}

theorem ttl_Set (c : Cache α) (key : GoString) (value : Any α) (now : Time) :
    (c.Set key value now).ttl = c.ttl := rfl

theorem ttl_Invalidate (c : Cache α) (key : GoString) : (c.Invalidate key).ttl = c.ttl := by
  unfold Cache.Invalidate
  split <;> rfl

theorem ttl_InvalidatePattern (c : Cache α) (pattern : GoString) :
    (c.InvalidatePattern pattern).ttl = c.ttl := rfl

theorem ttl_Clear (c : Cache α) : c.Clear.ttl = c.ttl := rfl

theorem lookup_Set_self (c : Cache α) (key : GoString) (value : Any α) (now : Time) :
    (c.Set key value now).entries.lookup key
      = some { data := value, expiresAt := now + c.ttl } := by
  simp [Cache.Set, timeAdd, AList.lookup_insert]

theorem lookup_Set_ne (c : Cache α) {key k : GoString} (value : Any α) (now : Time)
    (h : k ≠ key) : (c.Set key value now).entries.lookup k = c.entries.lookup k := by
  simp [Cache.Set, AList.lookup_insert_ne h]

theorem entries_Invalidate (c : Cache α) (key : GoString) :
    (c.Invalidate key).entries = c.entries.erase key := by
  unfold Cache.Invalidate
  split
  · rfl
  · rename_i h
    have hnone : c.entries.lookup key = none := by
      cases hl : c.entries.lookup key with
      | none => rfl
      | some e => simp [hl] at h
    have hnot : key ∉ c.entries := AList.lookup_eq_none.mp hnone
    apply AList.ext
    simp only [AList.erase]
    exact (List.kerase_of_not_mem_keys hnot).symm

theorem lookup_Invalidate_self (c : Cache α) (key : GoString) :
    (c.Invalidate key).entries.lookup key = none := by
  rw [entries_Invalidate, AList.lookup_erase]

theorem lookup_Invalidate_ne (c : Cache α) {key k : GoString} (h : k ≠ key) :
    (c.Invalidate key).entries.lookup k = c.entries.lookup k := by
  rw [entries_Invalidate, AList.lookup_erase_ne h]

theorem lookup_foldl_invalidateStep (pattern k : GoString) (ks : List GoString)
    (acc : Entries α × Nat) :
    (ks.foldl (Cache.invalidateStep pattern) acc).1.lookup k
      = if k ∈ ks ∧ Cache.matchesPattern k pattern = true then none else acc.1.lookup k := by
  induction ks generalizing acc with
  | nil => simp
  | cons x ks ih =>
    rw [List.foldl_cons, ih]
    by_cases hm : Cache.matchesPattern k pattern = true
    · by_cases hk : k ∈ ks
      · simp [hk, hm]
      · by_cases hx : k = x
        · subst hx
          simp [hk, hm, Cache.invalidateStep, AList.lookup_erase]
        · have hx2 : Cache.invalidateStep pattern acc x = acc
              ∨ Cache.invalidateStep pattern acc x = (acc.1.erase x, acc.2 + 1) := by
            unfold Cache.invalidateStep
            split
            · exact Or.inr rfl
            · exact Or.inl rfl
          rcases hx2 with h | h
          · simp [h, hk, hx]
          · simp [h, hk, hx, AList.lookup_erase_ne hx]
    · have hx2 : Cache.invalidateStep pattern acc x = acc
          ∨ Cache.invalidateStep pattern acc x = (acc.1.erase x, acc.2 + 1) := by
        unfold Cache.invalidateStep
        split
        · exact Or.inr rfl
        · exact Or.inl rfl
      rcases hx2 with h | h
      · simp [h, hm]
      · have hne : k ≠ x := by
          intro hkx
          subst hkx
          unfold Cache.invalidateStep at h
          split at h
          · contradiction
          · rename_i hnm
            have := congrArg Prod.snd h
            simp at this
        simp [h, hm, AList.lookup_erase_ne hne]

theorem lookup_InvalidatePattern (c : Cache α) (pattern k : GoString) :
    (c.InvalidatePattern pattern).entries.lookup k
      = if pattern <+: k then none else c.entries.lookup k := by
  unfold Cache.InvalidatePattern
  simp only
  rw [lookup_foldl_invalidateStep]
  by_cases hm : pattern <+: k
  · have hm2 := (matchesPattern_iff k pattern).mpr hm
    by_cases hk : k ∈ c.entries.keys
    · simp [hm, hm2, hk]
    · have hnone : c.entries.lookup k = none := AList.lookup_eq_none.mpr hk
      simp [hm, hm2, hk, hnone]
  · have hm2 : ¬ Cache.matchesPattern k pattern = true :=
      fun h => hm ((matchesPattern_iff k pattern).mp h)
    simp [hm, hm2]

theorem lookup_Clear (c : Cache α) (k : GoString) : c.Clear.entries.lookup k = none := by
  simp [Cache.Clear]

end Lookup

/-! ## Reads and call sequences -/

section Reads

variable {α : Type}

theorem Get_of_lookup_none (c : Cache α) (k : GoString) (now : Time)
    (h : c.entries.lookup k = none) : c.Get k now = (none, false) := by
  simp [Cache.Get, h]

theorem Get_of_lookup_some (c : Cache α) (k : GoString) (now : Time) (e : CacheEntry α)
    (h : c.entries.lookup k = some e) :
    c.Get k now = if e.expiresAt < now then (none, false) else (e.data, true) := by
  simp [Cache.Get, h, CacheEntry.IsExpired, timeAfter]

theorem Get_hit_iff (c : Cache α) (k : GoString) (now : Time) (v : Any α) :
    c.Get k now = (v, true)
      ↔ ∃ e, c.entries.lookup k = some e ∧ e.data = v ∧ now ≤ e.expiresAt := by
  cases hl : c.entries.lookup k with
  | none => simp [Get_of_lookup_none c k now hl]
  | some e =>
    rw [Get_of_lookup_some c k now e hl]
    by_cases hexp : e.expiresAt < now
    · simp only [hexp, if_true]
      constructor
      · intro h
        simp at h
      · rintro ⟨e2, he2, _, hle⟩
        cases he2
        exact absurd hexp (not_lt.mpr hle)
    · simp only [hexp, if_false]
      constructor
      · intro h
        have hd : e.data = v := congrArg Prod.fst h
        exact ⟨e, rfl, hd, not_lt.mp hexp⟩
      · rintro ⟨e2, he2, hd, _⟩
        cases he2
        rw [hd]

theorem Get_miss_iff (c : Cache α) (k : GoString) (now : Time) :
    c.Get k now = (none, false)
      ↔ ¬ ∃ e, c.entries.lookup k = some e ∧ now ≤ e.expiresAt := by
  cases hl : c.entries.lookup k with
  | none => simp [Get_of_lookup_none c k now hl]
  | some e =>
    rw [Get_of_lookup_some c k now e hl]
    by_cases hexp : e.expiresAt < now
    · simp only [hexp, if_true, true_iff]
      rintro ⟨e2, he2, hle⟩
      cases he2
      exact absurd hexp (not_lt.mpr hle)
    · simp only [hexp, if_false]
      constructor
      · intro h
        have := congrArg Prod.snd h
        simp at this
      · intro h
        exact absurd ⟨e, rfl, not_lt.mp hexp⟩ h

theorem Get_after_Set_of_le_expiration (c : Cache α) (k : GoString) (v : Any α)
    (t t1 : Time) (h : t1 ≤ t + c.ttl) : (c.Set k v t).Get k t1 = (v, true) := by
  rw [Get_of_lookup_some _ k t1 _ (lookup_Set_self c k v t)]
  have hn : ¬ (t + c.ttl < t1) := not_lt.mpr h
  simp only [hn, if_false]

theorem ttl_NewCache_of_le_max (ttlSeconds : Int) (h0 : 0 ≤ ttlSeconds)
    (hmax : ttlSeconds ≤ maxTTLSeconds) :
    (NewCache ttlSeconds : Cache α).ttl = ttlSeconds * 1000000000 := by
  show wrapInt64 (ttlSeconds * Second) = ttlSeconds * 1000000000
  unfold maxTTLSeconds at hmax
  rw [wrapInt64_of_range]
  · rfl
  · unfold minInt64 Second
    norm_num
    omega
  · unfold maxInt64 Second
    norm_num
    omega

theorem ttl_apply (c : Cache α) (op : Op α) : (c.apply op).ttl = c.ttl := by
  cases op with
  | set key value now => exact ttl_Set c key value now
  | get key now => rfl
  | invalidate key => exact ttl_Invalidate c key
  | invalidatePattern pattern => exact ttl_InvalidatePattern c pattern
  | clear => exact ttl_Clear c

theorem ttl_run (c : Cache α) (ops : List (Op α)) : (c.run ops).ttl = c.ttl := by
  induction ops generalizing c with
  | nil => rfl
  | cons op ops ih =>
    show ((c.apply op).run ops).ttl = c.ttl
    rw [ih, ttl_apply]

theorem lookup_apply_of_not_setsKey (c : Cache α) (op : Op α) (k : GoString)
    (h : op.setsKey k = false) :
    (c.apply op).entries.lookup k = none
      ∨ (c.apply op).entries.lookup k = c.entries.lookup k := by
  cases op with
  | set key value now =>
    have hne : k ≠ key := by
      intro hk
      simp [Op.setsKey, hk] at h
    exact Or.inr (lookup_Set_ne c value now hne)
  | get key now => exact Or.inr rfl
  | invalidate key =>
    by_cases hk : k = key
    · subst hk
      exact Or.inl (lookup_Invalidate_self c k)
    · exact Or.inr (lookup_Invalidate_ne c hk)
  | invalidatePattern pattern =>
    show (c.InvalidatePattern pattern).entries.lookup k = none ∨ _
    rw [lookup_InvalidatePattern]
    by_cases hp : pattern <+: k
    · simp [hp]
    · simp [hp, Cache.apply, lookup_InvalidatePattern]
  | clear => exact Or.inl (lookup_Clear c k)

theorem lookup_run_of_not_setsKey (c : Cache α) (ops : List (Op α)) (k : GoString)
    (h : ∀ op ∈ ops, op.setsKey k = false) :
    (c.run ops).entries.lookup k = none
      ∨ (c.run ops).entries.lookup k = c.entries.lookup k := by
  induction ops generalizing c with
  | nil => exact Or.inr rfl
  | cons op ops ih =>
    have hop : op.setsKey k = false := h op (List.mem_cons_self op ops)
    have hops : ∀ o ∈ ops, o.setsKey k = false :=
      fun o ho => h o (List.mem_cons_of_mem op ho)
    show ((c.apply op).run ops).entries.lookup k = none
      ∨ ((c.apply op).run ops).entries.lookup k = c.entries.lookup k
    rcases ih (c.apply op) hops with h1 | h1
    · exact Or.inl h1
    · rcases lookup_apply_of_not_setsKey c op k hop with h2 | h2
      · exact Or.inl (h1.trans h2)
      · exact Or.inr (h1.trans h2)

end Reads

/-! ## Decimal formatting and the key helpers -/

theorem digitByte_val (d : Nat) (h : d < 10) : (digitByte d).val - 48 = d := by
  unfold digitByte
  have hlt : 48 + d < 256 := by omega
  simp [Fin.ofNat, Nat.mod_eq_of_lt hlt]

theorem parseDecimal_append_singleton (ds : GoString) (b : Byte) :
    parseDecimal (ds ++ [b]) = 10 * parseDecimal ds + (b.val - 48) := by
  simp [parseDecimal, List.foldl_append]

theorem formatUintCore_spec (fuel u : Nat) (acc : GoString) (h : u < 10 ^ fuel) :
    ∃ ds : GoString, formatUintCore fuel u acc = ds ++ acc ∧ parseDecimal ds = u := by
  induction fuel generalizing u acc with
  | zero =>
    have hu : u = 0 := by
      simp at h
      exact h
    exact ⟨[], rfl, hu.symm⟩
  | succ fuel ih =>
    by_cases hlt : u < 10
    · refine ⟨[digitByte u], ?_, ?_⟩
      · simp [formatUintCore, hlt]
      · have := digitByte_val u hlt
        simp [parseDecimal, this]
    · have hdiv : u / 10 < 10 ^ fuel := by
        rw [Nat.div_lt_iff_lt_mul (by decide : 0 < 10)]
        rw [pow_succ] at h
        exact h
      obtain ⟨ds, hds, hval⟩ := ih (u / 10) (digitByte (u % 10) :: acc) hdiv
      refine ⟨ds ++ [digitByte (u % 10)], ?_, ?_⟩
      · simp [formatUintCore, hlt, hds]
      · rw [parseDecimal_append_singleton, hval,
          digitByte_val (u % 10) (Nat.mod_lt u (by decide))]
        exact Nat.div_add_mod u 10

theorem parseDecimal_formatUint (u : Nat) : parseDecimal (formatUint u) = u := by
  have hlt : u < 10 ^ (u + 1) :=
    lt_of_lt_of_le (Nat.lt_pow_self (by decide : 1 < 10) u)
      (Nat.pow_le_pow_right (by decide) (Nat.le_succ u))
  obtain ⟨ds, hds, hval⟩ := formatUintCore_spec (u + 1) u [] hlt
  unfold formatUint
  rw [hds, List.append_nil, hval]

theorem formatUint_injective (a b : Nat) (h : formatUint a = formatUint b) : a = b := by
  have := congrArg parseDecimal h
  rwa [parseDecimal_formatUint, parseDecimal_formatUint] at this

theorem startsWith_append {p q : GoString} (x : GoString) (h : p <+: q) :
    p <+: q ++ x :=
  h.trans (List.prefix_append q x)

theorem not_prefix_append {p q : GoString} (x : GoString) (hlen : p.length ≤ q.length)
    (h : ¬ p <+: q) : ¬ p <+: q ++ x := by
  rw [List.prefix_iff_eq_take] at h ⊢
  rwa [List.take_append_of_le_length hlen]

theorem ne_append_of_take_ne {k q : GoString} (x : GoString) (n : Nat)
    (hlen : n ≤ q.length) (h : k.take n ≠ q.take n) : k ≠ q ++ x := by
  intro hk
  apply h
  rw [hk, List.take_append_of_le_length hlen]

theorem append_ne_append_of_take_ne {q1 q2 : GoString} (x y : GoString) (n : Nat)
    (h1 : n ≤ q1.length) (h2 : n ≤ q2.length) (h : q1.take n ≠ q2.take n) :
    q1 ++ x ≠ q2 ++ y := by
  intro hk
  apply h
  have := congrArg (List.take n) hk
  rwa [List.take_append_of_le_length h1, List.take_append_of_le_length h2] at this

/-! ## The mapping as a list of entries -/

section EntryLists

variable {α : Type}

theorem Cache.eq_of_fields (c1 c2 : Cache α) (he : c1.entries = c2.entries)
    (ht : c1.ttl = c2.ttl) : c1 = c2 := by
  cases c1
  cases c2
  simp only [Cache.mk.injEq]
  exact ⟨he, ht⟩

theorem Get_congr (c1 c2 : Cache α) (k : GoString) (now : Time)
    (h : c1.entries.lookup k = c2.entries.lookup k) : c1.Get k now = c2.Get k now := by
  unfold Cache.Get
  rw [h]

theorem Get_found_false_iff (c : Cache α) (k : GoString) (now : Time) :
    (c.Get k now).2 = false ↔ c.Get k now = (none, false) := by
  constructor
  · intro h
    cases hl : c.entries.lookup k with
    | none => exact Get_of_lookup_none c k now hl
    | some e =>
      rw [Get_of_lookup_some c k now e hl] at h ⊢
      by_cases hexp : e.expiresAt < now
      · simp [hexp]
      · simp [hexp] at h
  · intro h
    rw [h]

theorem kerase_eq_filter_of_nodupKeys (a : GoString)
    (l : List (Sigma fun _ : GoString => CacheEntry α)) (nd : l.NodupKeys) :
    List.kerase a l = l.filter (fun e => decide (e.1 ≠ a)) := by
  induction l with
  | nil => rfl
  | cons x l ih =>
    have ndl : l.NodupKeys := (List.nodupKeys_cons.mp nd).2
    by_cases hx : a = x.1
    · rw [List.kerase_cons_eq hx]
      have hnot : a ∉ l.keys := hx ▸ (List.nodupKeys_cons.mp nd).1
      have hl : List.kerase a l = l := List.kerase_of_not_mem_keys hnot
      rw [List.filter_cons_of_neg (by simp [hx]), ← ih ndl, hl]
    · rw [List.kerase_cons_ne hx, List.filter_cons_of_pos (by simp [Ne.symm hx]), ih ndl]

theorem entries_erase_eq_filter (m : Entries α) (a : GoString) :
    (m.erase a).entries = m.entries.filter (fun e => decide (e.1 ≠ a)) :=
  kerase_eq_filter_of_nodupKeys a m.entries m.nodupKeys

theorem entries_foldl_invalidateStep (pattern : GoString) (ks : List GoString)
    (acc : Entries α × Nat) :
    (ks.foldl (Cache.invalidateStep pattern) acc).1.entries
      = acc.1.entries.filter
          (fun e => !(decide (e.1 ∈ ks) && Cache.matchesPattern e.1 pattern)) := by
  induction ks generalizing acc with
  | nil => simp
  | cons x ks ih =>
    rw [List.foldl_cons, ih]
    by_cases hm : Cache.matchesPattern x pattern = true
    · have hstep : (Cache.invalidateStep pattern acc x).1 = acc.1.erase x := by
        simp [Cache.invalidateStep, hm]
      rw [hstep, entries_erase_eq_filter, List.filter_filter]
      apply List.filter_congr
      intro e _
      by_cases hex : e.1 = x
      · simp [hex, hm]
      · simp [hex]
    · have hstep : (Cache.invalidateStep pattern acc x).1 = acc.1 := by
        simp [Cache.invalidateStep, hm]
      rw [hstep]
      apply List.filter_congr
      intro e _
      by_cases hex : e.1 = x
      · simp [hex, hm]
      · simp [hex]

theorem entries_InvalidatePattern (c : Cache α) (pattern : GoString) :
    (c.InvalidatePattern pattern).entries.entries
      = c.entries.entries.filter (fun e => !Cache.matchesPattern e.1 pattern) := by
  unfold Cache.InvalidatePattern
  simp only
  rw [entries_foldl_invalidateStep]
  apply List.filter_congr
  intro e he
  have hk : e.1 ∈ c.entries.keys := List.mem_keys_of_mem he
  simp [hk]

theorem not_mem_InvalidatePattern_of_startsWith (c : Cache α) {p k : GoString} (h : p <+: k) :
    k ∉ (c.InvalidatePattern p).entries := by
  apply AList.lookup_eq_none.mp
  rw [lookup_InvalidatePattern]
  simp [h]

theorem lookup_InvalidatePattern_of_not_startsWith (c : Cache α) {p k : GoString}
    (h : ¬ p <+: k) :
    (c.InvalidatePattern p).entries.lookup k = c.entries.lookup k := by
  rw [lookup_InvalidatePattern]
  simp [h]

theorem Invalidate_of_not_mem (c : Cache α) {k : GoString} (h : k ∉ c.entries) :
    c.Invalidate k = c := by
  have hnone : c.entries.lookup k = none := AList.lookup_eq_none.mpr h
  simp [Cache.Invalidate, hnone]

theorem InvalidatePattern_then_narrower (c : Cache α) {p q : GoString} (h : p <+: q) :
    (c.InvalidatePattern p).InvalidatePattern q = c.InvalidatePattern p := by
  apply Cache.eq_of_fields
  · apply AList.ext
    rw [entries_InvalidatePattern, entries_InvalidatePattern, List.filter_filter]
    apply List.filter_congr
    intro e _
    by_cases hq : Cache.matchesPattern e.1 q = true
    · have hp : Cache.matchesPattern e.1 p = true :=
        (matchesPattern_iff e.1 p).mpr (h.trans ((matchesPattern_iff e.1 q).mp hq))
      simp [hq, hp]
    · simp [hq]
  · rfl

theorem InvalidatePattern_then_wider (c : Cache α) {p q : GoString} (h : p <+: q) :
    (c.InvalidatePattern q).InvalidatePattern p = c.InvalidatePattern p := by
  apply Cache.eq_of_fields
  · apply AList.ext
    rw [entries_InvalidatePattern, entries_InvalidatePattern, entries_InvalidatePattern,
      List.filter_filter]
    apply List.filter_congr
    intro e _
    by_cases hq : Cache.matchesPattern e.1 q = true
    · have hp : Cache.matchesPattern e.1 p = true :=
        (matchesPattern_iff e.1 p).mpr (h.trans ((matchesPattern_iff e.1 q).mp hq))
      simp [hq, hp]
    · simp [hq]
  · rfl

theorem InvalidatePattern_nil (c : Cache α) : c.InvalidatePattern [] = c.Clear := by
  apply Cache.eq_of_fields
  · apply AList.ext
    rw [entries_InvalidatePattern]
    have hall : ∀ e ∈ c.entries.entries, ¬ ((!Cache.matchesPattern e.1 []) = true) := by
      intro e _
      simp [Cache.matchesPattern]
    rw [List.filter_eq_nil_iff.mpr hall]
    rfl
  · rfl

end EntryLists

/-! ## Expiration along a call history -/

section Histories

variable {α : Type}

theorem lookup_apply_setTime (c : Cache α) (op : Op α) (k : GoString) (e : CacheEntry α)
    (h : (c.apply op).entries.lookup k = some e) :
    (∃ t, op.setTime? k = some t ∧ e.expiresAt = t + c.ttl)
      ∨ (op.setTime? k = none ∧ c.entries.lookup k = some e) := by
  cases op with
  | set key value now =>
    by_cases hk : key = k
    · subst hk
      left
      refine ⟨now, by simp [Op.setTime?], ?_⟩
      have hl : (c.Set key value now).entries.lookup key = some e := h
      rw [lookup_Set_self] at hl
      cases hl
      rfl
    · right
      refine ⟨by simp [Op.setTime?, hk], ?_⟩
      have hl : (c.Set key value now).entries.lookup k = some e := h
      rwa [lookup_Set_ne c value now (Ne.symm hk)] at hl
  | get key now => exact Or.inr ⟨rfl, h⟩
  | invalidate key =>
    right
    refine ⟨rfl, ?_⟩
    rcases lookup_apply_of_not_setsKey c (Op.invalidate key) k rfl with h1 | h1
    · rw [h1] at h
      cases h
    · rwa [h1] at h
  | invalidatePattern pattern =>
    right
    refine ⟨rfl, ?_⟩
    rcases lookup_apply_of_not_setsKey c (Op.invalidatePattern pattern) k rfl with h1 | h1
    · rw [h1] at h
      cases h
    · rwa [h1] at h
  | clear =>
    right
    refine ⟨rfl, ?_⟩
    rcases lookup_apply_of_not_setsKey c (Op.clear) k rfl with h1 | h1
    · rw [h1] at h
      cases h
    · rwa [h1] at h

theorem lookup_run_lastSetTime (c : Cache α) (ops : List (Op α)) (k : GoString)
    (e : CacheEntry α) (h : (c.run ops).entries.lookup k = some e) :
    (∃ t, lastSetTime k ops = some t ∧ e.expiresAt = t + c.ttl)
      ∨ (lastSetTime k ops = none ∧ c.entries.lookup k = some e) := by
  induction ops generalizing c with
  | nil => exact Or.inr ⟨rfl, h⟩
  | cons op ops ih =>
    have h1 : ((c.apply op).run ops).entries.lookup k = some e := h
    rcases ih (c.apply op) h1 with ⟨t, ht, hexp⟩ | ⟨hnone, hl⟩
    · left
      refine ⟨t, by simp [lastSetTime, ht], ?_⟩
      rw [hexp, ttl_apply]
    · rcases lookup_apply_setTime c op k e hl with ⟨t, ht, hexp⟩ | ⟨hn, hl2⟩
      · exact Or.inl ⟨t, by simp [lastSetTime, hnone, ht], hexp⟩
      · exact Or.inr ⟨by simp [lastSetTime, hnone, hn], hl2⟩

theorem run_of_all_isGet (c : Cache α) (ops : List (Op α))
    (h : ∀ op ∈ ops, op.isGet = true) : c.run ops = c := by
  induction ops generalizing c with
  | nil => rfl
  | cons op ops ih =>
    have hop : op.isGet = true := h op (List.mem_cons_self op ops)
    have hops : ∀ o ∈ ops, o.isGet = true := fun o ho => h o (List.mem_cons_of_mem op ho)
    have hstep : c.apply op = c := by
      cases op <;> simp [Op.isGet] at hop
      rfl
    show (c.apply op).run ops = c
    rw [hstep]
    exact ih c hops

end Histories

/-! ## Properties of the operations -/

section Claims

variable {α : Type}

/-- C1 (as stated) fails at the boundary: in `NewCache(2); Set("a", "x")` run at
instant `0` the entry expires at `2000000000`; a `Get("a")` at exactly that
instant finds the expiration not strictly after the clock reading and still
returns `("x", true)`, not `(nil, false)`. -/
theorem C1_Get_hits_when_expiry_equals_now :
    cacheA.entries.lookup (ascii "a")
        = some { data := some "x", expiresAt := 2000000000 }
      ∧ ¬ ((2000000000 : Time) < 2000000000)
      ∧ cacheA.Get (ascii "a") 2000000000 = (some "x", true)
      ∧ cacheA.Get (ascii "a") 2000000000 ≠ (none, false) := by
  decide

/-- C1 (amended): `Get(k)` at clock reading `now` returns `(v, true)` exactly
when `k` is present with payload `v` and an expiration timestamp that is not
before `now` (equal to `now` included); it returns `(nil, false)` exactly in
the remaining cases: `k` absent, or expiration strictly before `now`. -/
theorem C1_Get_hit_iff_present_and_not_before_now (c : Cache α) (k : GoString) (now : Time) :
    (∀ v : Any α, c.Get k now = (v, true)
        ↔ ∃ e, c.entries.lookup k = some e ∧ e.data = v ∧ now ≤ e.expiresAt)
      ∧ (c.Get k now = (none, false)
        ↔ (c.entries.lookup k = none
            ∨ ∃ e, c.entries.lookup k = some e ∧ e.expiresAt < now)) := by
  refine ⟨fun v => Get_hit_iff c k now v, ?_⟩
  rw [Get_miss_iff]
  cases hl : c.entries.lookup k with
  | none => simp
  | some e =>
    simp only [Option.some.injEq, exists_eq_left', false_or, reduceCtorEq]
    exact not_le

/-- C2 (as stated) fails for large TTLs. `NewCache(9223372037)` stores a
negative duration, and `Get("a")` at the very instant of `Set("a", "x")`
returns `(nil, false)`. `NewCache(18446744074)` stores the positive duration
`290448384` ns, and `Get("a")` one second after the `Set`, far inside
`18446744074` seconds, returns `(nil, false)`. -/
theorem C2_Get_after_Set_misses_when_ttl_wraps :
    ((0 : Int) < 9223372037 ∧ (9223372037 : Int) ≤ maxInt64
        ∧ (0 : Time) ≤ 0 ∧ (0 : Time) < 0 + 9223372037 * 1000000000
        ∧ ((NewCache 9223372037 : Cache String).Set (ascii "a") (some "x") 0).Get
              (ascii "a") 0 = (none, false))
      ∧ ((0 : Int) < 18446744074 ∧ (18446744074 : Int) ≤ maxInt64
        ∧ (NewCache 18446744074 : Cache String).ttl = 290448384
        ∧ (0 : Time) ≤ 1000000000 ∧ (1000000000 : Time) < 0 + 18446744074 * 1000000000
        ∧ ((NewCache 18446744074 : Cache String).Set (ascii "a") (some "x") 0).Get
              (ascii "a") 1000000000 = (none, false)) := by
  decide

/-- C2 (amended): for `0 < ttlSeconds ≤ 9223372036`, in every state reached
from `NewCache(ttlSeconds)`, a `Set(k, v)` run at `t` followed by `Get(k)` at
`t1` with `t ≤ t1 < t + ttlSeconds * 10^9` returns `(v, true)`. -/
theorem C2_Get_after_Set_within_ttl (ttlSeconds : Int) (ops : List (Op α)) (k : GoString)
    (v : Any α) (t t1 : Time) (h0 : 0 < ttlSeconds) (hmax : ttlSeconds ≤ maxTTLSeconds)
    (_hle : t ≤ t1) (hlt : t1 < t + ttlSeconds * 1000000000) :
    (((NewCache ttlSeconds : Cache α).run ops).Set k v t).Get k t1 = (v, true) := by
  have httl : ((NewCache ttlSeconds : Cache α).run ops).ttl = ttlSeconds * 1000000000 := by
    rw [ttl_run]
    exact ttl_NewCache_of_le_max ttlSeconds (le_of_lt h0) hmax
  apply Get_after_Set_of_le_expiration
  rw [httl]
  exact le_of_lt hlt

/-- C2 (amended) on the scenario `NewCache(2); Set("a", "x"); Get("a")`. -/
theorem C2_Get_after_Set_within_ttl_witness :
    (0 : Int) < 2 ∧ (2 : Int) ≤ maxTTLSeconds
      ∧ ((NewCache 2 : Cache String).Set (ascii "a") (some "x") 0).Get (ascii "a") 0
          = (some "x", true) :=
  ⟨by decide, by decide,
   C2_Get_after_Set_within_ttl 2 [] (ascii "a") (some "x") 0 0
     (by decide) (by decide) (by decide) (by decide)⟩

/-- C3: after `Set(k, v)` run at `t`, and any further calls none of which is a
`Set` of `k`, a `Get(k)` at an instant strictly greater than `t + TTL` returns
`(nil, false)`, whatever the configured TTL. -/
theorem C3_Get_after_ttl_misses (c : Cache α) (k : GoString) (v : Any α) (t t1 : Time)
    (ops : List (Op α)) (hops : ∀ op ∈ ops, op.setsKey k = false)
    (hgt : t + c.ttl < t1) :
    ((c.Set k v t).run ops).Get k t1 = (none, false) := by
  rcases lookup_run_of_not_setsKey (c.Set k v t) ops k hops with h | h
  · exact Get_of_lookup_none _ k t1 h
  · rw [lookup_Set_self] at h
    rw [Get_of_lookup_some _ k t1 _ h]
    simp only [hgt, if_true]

/-- C3 on the scenario `NewCache(2); Set("a", "x"); Get("a")`; three seconds
later `Get("a")` returns `(nil, false)`. -/
theorem C3_Get_after_ttl_misses_witness :
    (0 : Int) + (NewCache 2 : Cache String).ttl < 3000000000
      ∧ (((NewCache 2 : Cache String).Set (ascii "a") (some "x") 0).run
            [Op.get (ascii "a") 0]).Get (ascii "a") 3000000000 = (none, false) :=
  ⟨by decide,
   C3_Get_after_ttl_misses (NewCache 2) (ascii "a") (some "x") 0 3000000000
     [Op.get (ascii "a") 0] (by decide) (by decide)⟩

/-- C4: last write wins and resets the clock. After `Set(k, v1)` at `t1` and
`Set(k, v2)` at `t2 ≥ t1`, the entry of `k` holds `v2` and expires at
`t2 + TTL`, so `Get(k)` at `t` with `t2 ≤ t < t2 + TTL` returns `(v2, true)`,
with no condition relating `t` to `t1 + TTL`. -/
theorem C4_last_Set_wins (c : Cache α) (k : GoString) (v1 v2 : Any α) (t1 t2 t : Time)
    (_httl : 0 < c.ttl) (_h12 : t1 ≤ t2) (_h2 : t2 ≤ t) (hlt : t < t2 + c.ttl) :
    ((c.Set k v1 t1).Set k v2 t2).entries.lookup k
        = some { data := v2, expiresAt := t2 + c.ttl }
      ∧ ((c.Set k v1 t1).Set k v2 t2).Get k t = (v2, true) := by
  have hl : ((c.Set k v1 t1).Set k v2 t2).entries.lookup k
      = some { data := v2, expiresAt := t2 + c.ttl } := by
    rw [lookup_Set_self, ttl_Set]
  refine ⟨hl, ?_⟩
  rw [Get_of_lookup_some _ k t _ hl]
  have hn : ¬ (t2 + c.ttl < t) := not_lt.mpr (le_of_lt hlt)
  simp only [hn, if_false]

/-- C4 with TTL 2 s, writes at `0` and `5 s`, read at `6 s`: past the first
write's expiration (`2 s`), the read returns the second value. -/
theorem C4_last_Set_wins_witness :
    (0 : Int) + (NewCache 2 : Cache String).ttl < 6000000000
      ∧ cacheTwice.entries.lookup (ascii "k")
          = some { data := some "v2", expiresAt := 5000000000 + (NewCache 2 : Cache String).ttl }
      ∧ cacheTwice.Get (ascii "k") 6000000000 = (some "v2", true) :=
  ⟨by decide,
   C4_last_Set_wins (NewCache 2) (ascii "k") (some "v1") (some "v2") 0 5000000000 6000000000
     (by decide) (by decide) (by decide) (by decide)⟩

/-- C5: after `Invalidate(k)` on any state, `k` is absent from the mapping and
`Get(k)` returns `(nil, false)` at every instant; in particular so after
`Set(k, v)` followed by `Invalidate(k)`. -/
theorem C5_Get_after_Invalidate_misses (c : Cache α) (k : GoString) :
    k ∉ (c.Invalidate k).entries
      ∧ (∀ now : Time, (c.Invalidate k).Get k now = (none, false))
      ∧ (∀ (v : Any α) (t now : Time),
          ((c.Set k v t).Invalidate k).Get k now = (none, false)) :=
  ⟨AList.lookup_eq_none.mp (lookup_Invalidate_self c k),
   fun now => Get_of_lookup_none _ k now (lookup_Invalidate_self c k),
   fun v t now => Get_of_lookup_none _ k now (lookup_Invalidate_self (c.Set k v t) k)⟩

/-- C6: `Invalidate(k)` touches only key `k`. Every other key keeps its entry
(payload and expiration), the TTL is unchanged, and when `k` is absent the
whole state is unchanged. The operation is a total function: it cannot fail. -/
theorem C6_Invalidate_frame (c : Cache α) (k : GoString) :
    (∀ k1 : GoString, k1 ≠ k → (c.Invalidate k).entries.lookup k1 = c.entries.lookup k1)
      ∧ (c.Invalidate k).ttl = c.ttl
      ∧ (k ∉ c.entries → c.Invalidate k = c) := by
  refine ⟨fun k1 h => lookup_Invalidate_ne c h, ttl_Invalidate c k, ?_⟩
  intro hk
  have hnone : c.entries.lookup k = none := AList.lookup_eq_none.mpr hk
  simp [Cache.Invalidate, hnone]

/-- C6 on the four-key cache: invalidating `books:list` leaves the entry of
`readers:list` as it was, and invalidating the absent key `a` changes nothing. -/
theorem C6_Invalidate_frame_witness :
    ascii "readers:list" ≠ ascii "books:list"
      ∧ ascii "a" ∉ cacheBooks.entries
      ∧ (cacheBooks.Invalidate (ascii "books:list")).entries.lookup (ascii "readers:list")
          = cacheBooks.entries.lookup (ascii "readers:list")
      ∧ cacheBooks.Invalidate (ascii "a") = cacheBooks :=
  ⟨by decide,
   AList.lookup_eq_none.mp (by decide),
   (C6_Invalidate_frame cacheBooks (ascii "books:list")).1 (ascii "readers:list") (by decide),
   (C6_Invalidate_frame cacheBooks (ascii "a")).2.2 (AList.lookup_eq_none.mp (by decide))⟩

/-- C7: after `InvalidatePattern(p)` every key that has `p` as a prefix of its
bytes is absent, and the entries present are exactly the old entries whose key
does not have the prefix `p`, each with the same payload and expiration. -/
theorem C7_InvalidatePattern_removes_exactly_prefixed (c : Cache α) (p : GoString) :
    (∀ k : GoString, p <+: k → k ∉ (c.InvalidatePattern p).entries)
      ∧ (∀ (k : GoString) (e : CacheEntry α),
          (c.InvalidatePattern p).entries.lookup k = some e
            ↔ (¬ p <+: k ∧ c.entries.lookup k = some e)) := by
  constructor
  · intro k hk
    apply AList.lookup_eq_none.mp
    rw [lookup_InvalidatePattern]
    simp [hk]
  · intro k e
    rw [lookup_InvalidatePattern]
    by_cases hk : p <+: k
    · simp [hk]
    · simp [hk]

/-- C7 on the scenario: after `InvalidatePattern("books:")` the three `books:`
keys are absent and `Get("readers:list")` still returns its value. -/
theorem C7_InvalidatePattern_removes_exactly_prefixed_witness :
    ascii "books:" <+: ascii "books:list"
      ∧ ascii "books:list" ∉ (cacheBooks.InvalidatePattern (ascii "books:")).entries
      ∧ ascii "books:id:1" ∉ (cacheBooks.InvalidatePattern (ascii "books:")).entries
      ∧ ascii "books:id:2" ∉ (cacheBooks.InvalidatePattern (ascii "books:")).entries
      ∧ (cacheBooks.InvalidatePattern (ascii "books:")).Get (ascii "readers:list") 0
          = (some "r", true) :=
  ⟨by decide,
   (C7_InvalidatePattern_removes_exactly_prefixed cacheBooks (ascii "books:")).1
     (ascii "books:list") (by decide),
   (C7_InvalidatePattern_removes_exactly_prefixed cacheBooks (ascii "books:")).1
     (ascii "books:id:1") (by decide),
   (C7_InvalidatePattern_removes_exactly_prefixed cacheBooks (ascii "books:")).1
     (ascii "books:id:2") (by decide),
   by decide⟩

/-- C8: `Clear()` leaves an empty mapping and the same TTL, so `Get(k)` returns
`(nil, false)` for every key at every instant, also after any further calls
none of which is a `Set` of `k`. -/
theorem C8_Clear_empties (c : Cache α) :
    c.Clear.entries = ∅
      ∧ c.Clear.ttl = c.ttl
      ∧ (∀ (k : GoString) (now : Time), c.Clear.Get k now = (none, false))
      ∧ (∀ (ops : List (Op α)) (k : GoString) (now : Time),
          (∀ op ∈ ops, op.setsKey k = false) →
            (c.Clear.run ops).Get k now = (none, false)) := by
  refine ⟨rfl, rfl, fun k now => Get_of_lookup_none _ k now (lookup_Clear c k), ?_⟩
  intro ops k now hops
  apply Get_of_lookup_none
  rcases lookup_run_of_not_setsKey c.Clear ops k hops with h | h
  · exact h
  · rw [h, lookup_Clear]

/-- C8 on the four-key cache: after `Clear()` and a `Set` of another key,
`Get("books:list")` returns `(nil, false)`. -/
theorem C8_Clear_empties_witness :
    (cacheBooks.Clear.run [Op.set (ascii "a") (some "x") 0]).Get (ascii "books:list") 0
      = (none, false) :=
  (C8_Clear_empties cacheBooks).2.2.2 [Op.set (ascii "a") (some "x") 0] (ascii "books:list") 0
    (by decide)

/-- C9: `NewCache(ttlSeconds)` has an empty mapping, and after any calls none of
which is a `Set` of `k` (none at all included), `Get(k)` returns `(nil, false)`
at every instant. -/
theorem C9_Get_unset_key_misses (ttlSeconds : Int) :
    (NewCache ttlSeconds : Cache α).entries = ∅
      ∧ (∀ (k : GoString) (now : Time),
          (NewCache ttlSeconds : Cache α).Get k now = (none, false))
      ∧ (∀ (ops : List (Op α)) (k : GoString) (now : Time),
          (∀ op ∈ ops, op.setsKey k = false) →
            ((NewCache ttlSeconds : Cache α).run ops).Get k now = (none, false)) := by
  have hempty : ∀ k : GoString, (NewCache ttlSeconds : Cache α).entries.lookup k = none :=
    fun k => by simp [NewCache]
  refine ⟨rfl, fun k now => Get_of_lookup_none _ k now (hempty k), ?_⟩
  intro ops k now hops
  apply Get_of_lookup_none
  rcases lookup_run_of_not_setsKey (NewCache ttlSeconds) ops k hops with h | h
  · exact h
  · rw [h, hempty]

/-- C9 on `NewCache(2)`: after `Set("a", "x")` and `Invalidate("a")`, the key
`b`, never set, is not found. -/
theorem C9_Get_unset_key_misses_witness :
    ((NewCache 2 : Cache String).run
        [Op.set (ascii "a") (some "x") 0, Op.invalidate (ascii "a")]).Get (ascii "b") 0
      = (none, false) :=
  (C9_Get_unset_key_misses 2).2.2
    [Op.set (ascii "a") (some "x") 0, Op.invalidate (ascii "a")] (ascii "b") 0
    (by decide)

/-- C10 (as stated) fails: `9223372037` is a non-negative 64-bit integer, but
`NewCache(9223372037)` stores the wrapped, negative TTL
`-9223372036709551616` ns, not `9223372037 * 10^9` ns, and a `Set` at instant
`0` gives its entry that negative expiration. -/
theorem C10_NewCache_ttl_wraps :
    (0 : Int) ≤ 9223372037 ∧ (9223372037 : Int) ≤ maxInt64
      ∧ (NewCache 9223372037 : Cache String).ttl = -9223372036709551616
      ∧ (NewCache 9223372037 : Cache String).ttl ≠ 9223372037 * 1000000000
      ∧ ((NewCache 9223372037 : Cache String).Set (ascii "a") (some "x") 0).entries.lookup
            (ascii "a")
          = some { data := some "x", expiresAt := -9223372036709551616 } := by
  decide

/-- C10 (amended): for `0 ≤ ttlSeconds ≤ 9223372036`, `NewCache(ttlSeconds)`
stores exactly `ttlSeconds * 10^9` ns, and in every state reached from it a
`Set` run at `t` gives its entry the expiration `t + ttlSeconds * 10^9`. -/
theorem C10_NewCache_ttl_exact (ttlSeconds : Int) (h0 : 0 ≤ ttlSeconds)
    (hmax : ttlSeconds ≤ maxTTLSeconds) :
    (NewCache ttlSeconds : Cache α).ttl = ttlSeconds * 1000000000
      ∧ (∀ (ops : List (Op α)) (k : GoString) (v : Any α) (t : Time),
          (((NewCache ttlSeconds : Cache α).run ops).Set k v t).entries.lookup k
            = some { data := v, expiresAt := t + ttlSeconds * 1000000000 }) := by
  have httl : (NewCache ttlSeconds : Cache α).ttl = ttlSeconds * 1000000000 := by
    show wrapInt64 (ttlSeconds * Second) = ttlSeconds * 1000000000
    unfold maxTTLSeconds at hmax
    rw [wrapInt64_of_range]
    · rfl
    · unfold minInt64 Second
      norm_num
      omega
    · unfold maxInt64 Second
      norm_num
      omega
  refine ⟨httl, ?_⟩
  intro ops k v t
  rw [lookup_Set_self, ttl_run, httl]

/-- C10 (amended) at the largest admitted value, `9223372036` seconds. -/
theorem C10_NewCache_ttl_exact_witness :
    (0 : Int) ≤ 9223372036 ∧ (9223372036 : Int) ≤ maxTTLSeconds
      ∧ (NewCache 9223372036 : Cache String).ttl = 9223372036 * 1000000000 :=
  ⟨by decide, by decide,
   (C10_NewCache_ttl_exact 9223372036 (by decide) (by decide)).1⟩

/-- C11 (as stated) fails at `t' = t`: on `NewCache(0)` the stored TTL is `0`,
`Set("a", "x")` run at instant `100` gives the expiration `100`, and a
`Get("a")` at the same instant `100` returns `("x", true)`. -/
theorem C11_zero_ttl_read_at_Set_instant_hits :
    (NewCache 0 : Cache String).ttl = 0
      ∧ cacheZero.entries.lookup (ascii "a") = some { data := some "x", expiresAt := 100 }
      ∧ (100 : Time) ≤ 100
      ∧ cacheZero.Get (ascii "a") 100 = (some "x", true)
      ∧ (cacheZero.Get (ascii "a") 100).2 ≠ false := by
  decide

/-- C11 (amended): on a cache from `NewCache(0)`, in whatever state, after
`Set(k, v)` run at `t` a `Get(k)` at every strictly later clock reading
`t1 > t` returns `(nil, false)`. -/
theorem C11_zero_ttl_expired_at_later_reads (ops : List (Op α)) (k : GoString) (v : Any α)
    (t t1 : Time) (h : t < t1) :
    (((NewCache 0 : Cache α).run ops).Set k v t).Get k t1 = (none, false) := by
  have httl : ((NewCache 0 : Cache α).run ops).ttl = 0 := by
    rw [ttl_run]
    show wrapInt64 (0 * Second) = 0
    decide
  rw [Get_of_lookup_some _ k t1 _ (lookup_Set_self _ k v t), httl]
  have ht : t + 0 < t1 := by rwa [add_zero]
  simp only [ht, if_true]

/-- C11 (amended) one nanosecond after the `Set` of the example. -/
theorem C11_zero_ttl_expired_at_later_reads_witness :
    (100 : Time) < 101 ∧ cacheZero.Get (ascii "a") 101 = (none, false) :=
  ⟨by decide,
   C11_zero_ttl_expired_at_later_reads [] (ascii "a") (some "x") 100 101 (by decide)⟩

/-- C12: `Get` never modifies the cache. The state after a `Get`, and after any
number of them, is the state before (same mapping, same TTL); an entry whose
expiration has passed is reported as `(nil, false)` and is still in the mapping
afterwards. -/
theorem C12_Get_leaves_cache_unchanged (c : Cache α) (k : GoString) (now : Time) :
    c.apply (Op.get k now) = c
      ∧ (c.apply (Op.get k now)).entries = c.entries
      ∧ (c.apply (Op.get k now)).ttl = c.ttl
      ∧ (∀ ops : List (Op α), (∀ op ∈ ops, op.isGet = true) → c.run ops = c)
      ∧ (∀ e : CacheEntry α, c.entries.lookup k = some e → e.expiresAt < now →
          c.Get k now = (none, false)
            ∧ (c.apply (Op.get k now)).entries.lookup k = some e) := by
  refine ⟨rfl, rfl, rfl, fun ops h => run_of_all_isGet c ops h, ?_⟩
  intro e hl hexp
  refine ⟨?_, hl⟩
  rw [Get_of_lookup_some c k now e hl]
  simp only [hexp, if_true]

/-- C12 on a cache whose entry `a` expired at `5`: reads at `6` and `7` miss and
the entry is still stored. -/
theorem C12_Get_leaves_cache_unchanged_witness :
    cacheStale.Get (ascii "a") 6 = (none, false)
      ∧ (cacheStale.run [Op.get (ascii "a") 6, Op.get (ascii "a") 7]).entries.lookup (ascii "a")
          = some { data := some "x", expiresAt := 5 } :=
  ⟨((C12_Get_leaves_cache_unchanged cacheStale (ascii "a") 6).2.2.2.2
      { data := some "x", expiresAt := 5 } (by decide) (by decide)).1,
   by
     rw [(C12_Get_leaves_cache_unchanged cacheStale (ascii "a") 6).2.2.2.1
       [Op.get (ascii "a") 6, Op.get (ascii "a") 7] (by decide)]
     decide⟩

/-- C14: in every state reached from `NewCache(ttlSeconds)` by a sequence of
calls at arbitrary clock readings, the TTL is the one `NewCache` stored, and
every key present in the mapping has the expiration of its most recent `Set`:
the clock reading of that call plus the TTL. -/
theorem C14_expiration_is_last_Set_plus_ttl (ttlSeconds : Int) (ops : List (Op α)) :
    ((NewCache ttlSeconds : Cache α).run ops).ttl = (NewCache ttlSeconds : Cache α).ttl
      ∧ (∀ (k : GoString) (e : CacheEntry α),
          ((NewCache ttlSeconds : Cache α).run ops).entries.lookup k = some e →
            ∃ t, lastSetTime k ops = some t
              ∧ e.expiresAt = t + (NewCache ttlSeconds : Cache α).ttl) := by
  refine ⟨ttl_run _ ops, ?_⟩
  intro k e h
  rcases lookup_run_lastSetTime (NewCache ttlSeconds) ops k e h with h1 | ⟨_, h2⟩
  · exact h1
  · have hempty : (NewCache ttlSeconds : Cache α).entries.lookup k = none := by
      simp [NewCache]
    rw [hempty] at h2
    cases h2

/-- C14 on the history set-read-set of key `k` with TTL 2 s: the entry expires
two seconds after the second `Set`. -/
theorem C14_expiration_is_last_Set_plus_ttl_witness :
    ((NewCache 2 : Cache String).run historyTwice).entries.lookup (ascii "k")
        = some { data := some "v2", expiresAt := 7000000000 }
      ∧ ∃ t, lastSetTime (ascii "k") historyTwice = some t
          ∧ (7000000000 : Time) = t + (NewCache 2 : Cache String).ttl :=
  ⟨by decide,
   (C14_expiration_is_last_Set_plus_ttl 2 historyTwice).2 (ascii "k")
     { data := some "v2", expiresAt := 7000000000 } (by decide)⟩

/-- C15: the key helpers follow the namespaces. `BookListKey()` and
`BookIDKey(id)` start with `books:` and the reader keys do not, so
`InvalidatePattern("books:")` removes the book keys and leaves the entries of
the reader keys as they were; the same with the roles exchanged for
`readers:`; and `InvalidatePattern("books:id:")` removes `BookIDKey(id)` and
leaves the entry of `BookListKey()`. -/
theorem C15_key_helpers_follow_namespaces (c : Cache α) (id : Nat) :
    (ascii "books:" <+: BookListKey ∧ ascii "books:" <+: BookIDKey id
        ∧ ¬ ascii "books:" <+: ReaderListKey ∧ ¬ ascii "books:" <+: ReaderIDKey id)
      ∧ (ascii "readers:" <+: ReaderListKey ∧ ascii "readers:" <+: ReaderIDKey id
        ∧ ¬ ascii "readers:" <+: BookListKey ∧ ¬ ascii "readers:" <+: BookIDKey id)
      ∧ (BookListKey ∉ (c.InvalidatePattern (ascii "books:")).entries
        ∧ BookIDKey id ∉ (c.InvalidatePattern (ascii "books:")).entries
        ∧ (c.InvalidatePattern (ascii "books:")).entries.lookup ReaderListKey
            = c.entries.lookup ReaderListKey
        ∧ (c.InvalidatePattern (ascii "books:")).entries.lookup (ReaderIDKey id)
            = c.entries.lookup (ReaderIDKey id))
      ∧ (ReaderListKey ∉ (c.InvalidatePattern (ascii "readers:")).entries
        ∧ ReaderIDKey id ∉ (c.InvalidatePattern (ascii "readers:")).entries
        ∧ (c.InvalidatePattern (ascii "readers:")).entries.lookup BookListKey
            = c.entries.lookup BookListKey
        ∧ (c.InvalidatePattern (ascii "readers:")).entries.lookup (BookIDKey id)
            = c.entries.lookup (BookIDKey id))
      ∧ (BookIDKey id ∉ (c.InvalidatePattern (ascii "books:id:")).entries
        ∧ (c.InvalidatePattern (ascii "books:id:")).entries.lookup BookListKey
            = c.entries.lookup BookListKey) := by
  have b1 : ascii "books:" <+: BookListKey := by decide
  have b2 : ascii "books:" <+: BookIDKey id :=
    startsWith_append (formatUint id) (by decide)
  have b3 : ¬ ascii "books:" <+: ReaderListKey := by decide
  have b4 : ¬ ascii "books:" <+: ReaderIDKey id :=
    not_prefix_append (formatUint id) (by decide) (by decide)
  have r1 : ascii "readers:" <+: ReaderListKey := by decide
  have r2 : ascii "readers:" <+: ReaderIDKey id :=
    startsWith_append (formatUint id) (by decide)
  have r3 : ¬ ascii "readers:" <+: BookListKey := by decide
  have r4 : ¬ ascii "readers:" <+: BookIDKey id :=
    not_prefix_append (formatUint id) (by decide) (by decide)
  have i1 : ascii "books:id:" <+: BookIDKey id := List.prefix_append _ _
  have i2 : ¬ ascii "books:id:" <+: BookListKey := by decide
  exact ⟨⟨b1, b2, b3, b4⟩, ⟨r1, r2, r3, r4⟩,
    ⟨not_mem_InvalidatePattern_of_startsWith c b1, not_mem_InvalidatePattern_of_startsWith c b2,
      lookup_InvalidatePattern_of_not_startsWith c b3, lookup_InvalidatePattern_of_not_startsWith c b4⟩,
    ⟨not_mem_InvalidatePattern_of_startsWith c r1, not_mem_InvalidatePattern_of_startsWith c r2,
      lookup_InvalidatePattern_of_not_startsWith c r3, lookup_InvalidatePattern_of_not_startsWith c r4⟩,
    ⟨not_mem_InvalidatePattern_of_startsWith c i1, lookup_InvalidatePattern_of_not_startsWith c i2⟩⟩

/-- C16: the key helpers never collide. `BookIDKey` and `ReaderIDKey` are
injective in the id, the four keys `BookListKey()`, `ReaderListKey()`,
`BookIDKey(a)`, `ReaderIDKey(b)` are pairwise distinct, and so a `Set` or an
`Invalidate` of `BookIDKey(a)` leaves the entries of the other three keys as
they were. -/
theorem C16_key_helpers_never_collide (c : Cache α) (a b : Nat) (v : Any α) (t : Time) :
    (BookIDKey a = BookIDKey b ↔ a = b)
      ∧ (ReaderIDKey a = ReaderIDKey b ↔ a = b)
      ∧ (BookListKey ≠ ReaderListKey ∧ BookListKey ≠ BookIDKey a
        ∧ BookListKey ≠ ReaderIDKey b ∧ ReaderListKey ≠ BookIDKey a
        ∧ ReaderListKey ≠ ReaderIDKey b ∧ BookIDKey a ≠ ReaderIDKey b)
      ∧ ((c.Set (BookIDKey a) v t).entries.lookup (ReaderIDKey b)
            = c.entries.lookup (ReaderIDKey b)
        ∧ (c.Set (BookIDKey a) v t).entries.lookup BookListKey = c.entries.lookup BookListKey
        ∧ (c.Set (BookIDKey a) v t).entries.lookup ReaderListKey
            = c.entries.lookup ReaderListKey)
      ∧ ((c.Invalidate (BookIDKey a)).entries.lookup (ReaderIDKey b)
            = c.entries.lookup (ReaderIDKey b)
        ∧ (c.Invalidate (BookIDKey a)).entries.lookup BookListKey
            = c.entries.lookup BookListKey
        ∧ (c.Invalidate (BookIDKey a)).entries.lookup ReaderListKey
            = c.entries.lookup ReaderListKey) := by
  have hb : BookIDKey a = BookIDKey b ↔ a = b := by
    constructor
    · intro h
      exact formatUint_injective a b (List.append_cancel_left h)
    · intro h
      rw [h]
  have hr : ReaderIDKey a = ReaderIDKey b ↔ a = b := by
    constructor
    · intro h
      exact formatUint_injective a b (List.append_cancel_left h)
    · intro h
      rw [h]
  have d1 : BookListKey ≠ ReaderListKey := by decide
  have d2 : BookListKey ≠ BookIDKey a :=
    ne_append_of_take_ne (formatUint a) 7 (by decide) (by decide)
  have d3 : BookListKey ≠ ReaderIDKey b :=
    ne_append_of_take_ne (formatUint b) 1 (by decide) (by decide)
  have d4 : ReaderListKey ≠ BookIDKey a :=
    ne_append_of_take_ne (formatUint a) 1 (by decide) (by decide)
  have d5 : ReaderListKey ≠ ReaderIDKey b :=
    ne_append_of_take_ne (formatUint b) 9 (by decide) (by decide)
  have d6 : BookIDKey a ≠ ReaderIDKey b :=
    append_ne_append_of_take_ne (formatUint a) (formatUint b) 1
      (by decide) (by decide) (by decide)
  exact ⟨hb, hr, ⟨d1, d2, d3, d4, d5, d6⟩,
    ⟨lookup_Set_ne c v t (Ne.symm d6), lookup_Set_ne c v t d2, lookup_Set_ne c v t d4⟩,
    ⟨lookup_Invalidate_ne c (Ne.symm d6), lookup_Invalidate_ne c d2,
      lookup_Invalidate_ne c d4⟩⟩

/-- C17: `Set(k, v)` touches only key `k`. For every other key the entry
(presence, payload, expiration) and the result of `Get` at any instant are the
same before and after, and the TTL is unchanged. -/
theorem C17_Set_frame (c : Cache α) (k k1 : GoString) (v : Any α) (t : Time)
    (h : k1 ≠ k) :
    (c.Set k v t).entries.lookup k1 = c.entries.lookup k1
      ∧ (k1 ∈ (c.Set k v t).entries ↔ k1 ∈ c.entries)
      ∧ (∀ now : Time, (c.Set k v t).Get k1 now = c.Get k1 now)
      ∧ (c.Set k v t).ttl = c.ttl := by
  have hl := lookup_Set_ne c v t h
  refine ⟨hl, ?_, fun now => Get_congr _ _ k1 now hl, rfl⟩
  rw [← AList.lookup_isSome, ← AList.lookup_isSome, hl]

/-- C17 on the four-key cache: setting `books:list` again, five seconds later,
leaves what `Get("readers:list")` returns. -/
theorem C17_Set_frame_witness :
    ascii "readers:list" ≠ ascii "books:list"
      ∧ (cacheBooks.Set (ascii "books:list") (some "l2") 5000000000).Get
            (ascii "readers:list") 1
          = cacheBooks.Get (ascii "readers:list") 1 :=
  ⟨by decide,
   (C17_Set_frame cacheBooks (ascii "books:list") (ascii "readers:list") (some "l2")
      5000000000 (by decide)).2.2.1 1⟩

/-- C18: `InvalidatePattern("")` is `Clear()`: the empty string is a prefix of
every key, and both calls lead to the same state, with an empty mapping and the
TTL unchanged. -/
theorem C18_InvalidatePattern_empty_is_Clear (c : Cache α) :
    c.InvalidatePattern [] = c.Clear
      ∧ (c.InvalidatePattern []).entries = ∅
      ∧ (c.InvalidatePattern []).ttl = c.ttl
      ∧ (∀ k : GoString, Cache.matchesPattern k [] = true) := by
  refine ⟨InvalidatePattern_nil c, ?_, rfl, ?_⟩
  · rw [InvalidatePattern_nil]
    rfl
  · intro k
    exact (matchesPattern_iff k []).mpr List.nil_prefix

/-- C19: prefix invalidation absorbs along prefixes. When `p` is a prefix of
`q`, `InvalidatePattern(p)` followed by `InvalidatePattern(q)`, or preceded by
it, leads to the same state as `InvalidatePattern(p)` alone; so
`InvalidatePattern(p)` is idempotent; and `Invalidate(k)` after
`InvalidatePattern(p)` changes nothing when `k` starts with `p`. -/
theorem C19_InvalidatePattern_absorbs (c : Cache α) (p q : GoString) (h : p <+: q) :
    (c.InvalidatePattern p).InvalidatePattern q = c.InvalidatePattern p
      ∧ (c.InvalidatePattern q).InvalidatePattern p = c.InvalidatePattern p
      ∧ (c.InvalidatePattern p).InvalidatePattern p = c.InvalidatePattern p
      ∧ (∀ k : GoString, p <+: k →
          (c.InvalidatePattern p).Invalidate k = c.InvalidatePattern p) :=
  ⟨InvalidatePattern_then_narrower c h, InvalidatePattern_then_wider c h,
   InvalidatePattern_then_narrower c (List.prefix_refl p),
   fun _ hk => Invalidate_of_not_mem _ (not_mem_InvalidatePattern_of_startsWith c hk)⟩

/-- C19 on the four-key cache with `p = "books:"` and `q = "books:id:"`. -/
theorem C19_InvalidatePattern_absorbs_witness :
    ascii "books:" <+: ascii "books:id:"
      ∧ (cacheBooks.InvalidatePattern (ascii "books:")).InvalidatePattern (ascii "books:id:")
          = cacheBooks.InvalidatePattern (ascii "books:")
      ∧ (cacheBooks.InvalidatePattern (ascii "books:id:")).InvalidatePattern (ascii "books:")
          = cacheBooks.InvalidatePattern (ascii "books:") :=
  ⟨by decide,
   (C19_InvalidatePattern_absorbs cacheBooks (ascii "books:") (ascii "books:id:")
      (by decide)).1,
   (C19_InvalidatePattern_absorbs cacheBooks (ascii "books:") (ascii "books:id:")
      (by decide)).2.1⟩

/-- C20: expiry is monotone. If `Get(k)` reports `found = false` at `t`, then
after any calls none of which is a `Set` of `k`, `Get(k)` at every `t1 ≥ t`
returns `(nil, false)`. -/
theorem C20_miss_stays_miss (c : Cache α) (k : GoString) (t t1 : Time) (ops : List (Op α))
    (hle : t ≤ t1) (hmiss : (c.Get k t).2 = false)
    (hops : ∀ op ∈ ops, op.setsKey k = false) :
    (c.run ops).Get k t1 = (none, false)
      ∧ ((c.run ops).Get k t1).2 = false := by
  have hgoal : (c.run ops).Get k t1 = (none, false) := by
    rcases lookup_run_of_not_setsKey c ops k hops with h | h
    · exact Get_of_lookup_none _ k t1 h
    · cases hl : c.entries.lookup k with
      | none =>
        rw [hl] at h
        exact Get_of_lookup_none _ k t1 h
      | some e =>
        rw [hl] at h
        rw [Get_of_lookup_some c k t e hl] at hmiss
        rw [Get_of_lookup_some _ k t1 e h]
        by_cases hexp : e.expiresAt < t
        · have hexp1 : e.expiresAt < t1 := lt_of_lt_of_le hexp hle
          simp only [hexp1, if_true]
        · simp [hexp] at hmiss
  exact ⟨hgoal, by rw [hgoal]⟩

/-- C20 on the cache whose entry `a` expired at `5`: missed at `6`, then after
an `Invalidate` of another key and a read, missed at `9` as well. -/
theorem C20_miss_stays_miss_witness :
    (6 : Time) ≤ 9 ∧ (cacheStale.Get (ascii "a") 6).2 = false
      ∧ (cacheStale.run [Op.invalidate (ascii "b"), Op.get (ascii "a") 7]).Get (ascii "a") 9
          = (none, false) :=
  ⟨by decide, by decide,
   (C20_miss_stays_miss cacheStale (ascii "a") 6 9
      [Op.invalidate (ascii "b"), Op.get (ascii "a") 7]
      (by decide) (by decide) (by decide)).1⟩

end Claims

end Lab4
